import Mathlib

/-!
Shallow embedding of the `ttask` order cache (src/OrderCache.cpp,
src/OrderCache.h, src/Order.h, src/OrderValidator.h and the
OrderIndexedStorage header) together with proofs about the claims
C1..C10 of the specification.

Modelling conventions:
* C++ `std::string` is modelled as `List Char`.
* `uint64_t` / `unsigned int` counters are modelled on `Nat`; the code's
  64-bit arithmetic is exact for all values below `2 ^ 64`, and the final
  `unsigned int` conversion of `getMatchingSizeForSecurity` is modelled by
  an explicit `% 2 ^ 32`.  The signed 64-bit intermediate computation of
  the matching size is modelled on `Int`.
* `std::unordered_map` fields that the code only ever reads through
  `operator[]`/`find` (never iterates) are modelled as total functions with
  the default-constructed value for absent keys; the code erases empty
  index buckets and an absent bucket behaves exactly like an empty one.
* The sorted `std::vector<uint64_t> maxVolumes` with
  `insert(lower_bound ..)` / conditional `erase(lower_bound ..)` is
  modelled as a `List Nat` with `insertLB` / `eraseLB` below.
* `throw std::invalid_argument` is modelled with `Except`; both throwing
  operations throw before any mutation, so a caller that catches the
  exception observes an unchanged cache.
-/

namespace OC

/-- The literal `ORDER_ID_PREFIX = "OrdId"` from src/Order.h. -/
def ordIdPfx : List Char := ['O', 'r', 'd', 'I', 'd']

/-- The literal `BUY_SIDE = "Buy"` from src/Order.h. -/
def buySideL : List Char := ['B', 'u', 'y']

/-- The literal `SELL_SIDE = "Sell"` from src/Order.h. -/
def sellSideL : List Char := ['S', 'e', 'l', 'l']

/-- The `Order` value object of src/Order.h. -/
structure Order where
  orderId : List Char
  securityId : List Char
  side : List Char
  qty : Nat
  user : List Char
  company : List Char
deriving DecidableEq, Repr

/-- `std::isdigit` on the ASCII digits, as used by the validator. -/
def isDigitChar (c : Char) : Bool := '0' ≤ c && c ≤ '9'

/-- Numeric value of a decimal digit character. -/
def digitVal (c : Char) : Nat := c.toNat - '0'.toNat

/-- Value of a digit string, most significant digit first. -/
def natOfDigits (l : List Char) : Nat :=
  l.foldl (fun a c => a * 10 + digitVal c) 0

/-- `std::string_view::find`: position of the first occurrence of `pat`
as a contiguous substring of `l`, if any. -/
def findSub (pat l : List Char) : Option Nat :=
  match l with
  | [] => if pat = [] then some 0 else none
  | _ :: t => if l.take pat.length = pat then some 0 else (findSub pat t).map (· + 1)

/-- Error kinds of `order_cache::validator::OrderValidator`
(src/OrderValidator.h). -/
inductive OrderValidationError where
  | emptyOrderId
  | invalidOrderIdFormat
  | emptySecurityId
  | emptyUser
  | emptyCompany
  | invalidSide
  | zeroQuantity
deriving DecidableEq, Repr

/-- `OrderValidator::_validateOrderIdFormat`: the first occurrence of the
literal prefix must be at position 0, and every character after the prefix
length must be a decimal digit.  (Note: an id that is exactly the prefix
passes this check, and no 64-bit range check is made here.) -/
def validateOrderIdFormat (id : List Char) : Option OrderValidationError :=
  if findSub ordIdPfx id ≠ some 0 then some .invalidOrderIdFormat
  else if (id.drop ordIdPfx.length).all isDigitChar then none
  else some .invalidOrderIdFormat

/-- `OrderValidator::validateOrder` (src/OrderValidator.h), with the
checks in the source's order. -/
def validateOrder (o : Order) : Option OrderValidationError :=
  if o.orderId = [] then some .emptyOrderId
  else match validateOrderIdFormat o.orderId with
  | some e => some e
  | none =>
    if o.securityId = [] then some .emptySecurityId
    else if o.user = [] then some .emptyUser
    else if o.company = [] then some .emptyCompany
    else if o.side ≠ buySideL ∧ o.side ≠ sellSideL then some .invalidSide
    else if o.qty = 0 then some .zeroQuantity
    else none

/-- `std::from_chars` on `uint64_t`: consumes the maximal initial run of
decimal digits; fails if that run is empty (`errc::invalid_argument`) or
its value does not fit in 64 bits (`errc::result_out_of_range`).
Trailing non-digit characters are left unconsumed, and the end pointer is
ignored by the caller `_idToIndex`. -/
def fromCharsU64 (l : List Char) : Option Nat :=
  let d := l.takeWhile isDigitChar
  if d = [] then none
  else if natOfDigits d < 2 ^ 64 then some (natOfDigits d) else none

/-- `OrderCache::_idToIndex` (src/OrderCache.cpp lines 134-162). -/
def idToIndex (id : List Char) : Option Nat :=
  if id.length ≤ ordIdPfx.length then none
  else if id.take ordIdPfx.length ≠ ordIdPfx then none
  else fromCharsU64 (id.drop ordIdPfx.length)

/-- `order_cache::storage::OrderIndexedStorage`: dense slot store with a
presence/position vector and a compact list of alive slots.
`orderPositions i = none` models `INVALID_ORDER_POSITION` (and an index
beyond the vectors' size). -/
structure OrderIndexedStorage where
  orders : Nat → Order
  orderPositions : Nat → Option Nat
  aliveOrderIndexes : List Nat

/-- The default-constructed order used to fill fresh slots. -/
def emptyOrder : Order := ⟨[], [], [], 0, [], []⟩

def emptyStorage : OrderIndexedStorage :=
  ⟨fun _ => emptyOrder, fun _ => none, []⟩

/-- `OrderIndexedStorage::hasOrder`. -/
def OrderIndexedStorage.hasOrder (st : OrderIndexedStorage) (i : Nat) : Bool :=
  (st.orderPositions i).isSome

/-- `OrderIndexedStorage::getOrder`. -/
def OrderIndexedStorage.getOrder (st : OrderIndexedStorage) (i : Nat) : Order :=
  st.orders i

/-- `OrderIndexedStorage::addOrder`: record the slot's position in the
alive list, append the slot to the alive list and store the order. -/
def OrderIndexedStorage.addOrder (st : OrderIndexedStorage) (o : Order) (i : Nat) :
    OrderIndexedStorage :=
  ⟨fun j => if j = i then o else st.orders j,
   fun j => if j = i then some st.aliveOrderIndexes.length else st.orderPositions j,
   st.aliveOrderIndexes ++ [i]⟩

/-- `OrderIndexedStorage::cancelOrder`: swap the removed slot's entry in
the alive list with the last entry, fix the swapped-in slot's position,
pop the list and invalidate the removed slot's position.  Callers gate on
`hasOrder`, so the `none` branch is never taken by the cache. -/
def OrderIndexedStorage.cancelOrder (st : OrderIndexedStorage) (i : Nat) :
    OrderIndexedStorage :=
  match st.orderPositions i with
  | none => st
  | some p =>
    let lastIdx := st.aliveOrderIndexes.getLast?.getD 0
    ⟨st.orders,
     fun j => if j = i then none else if j = lastIdx then some p else st.orderPositions j,
     (st.aliveOrderIndexes.set p lastIdx).dropLast⟩

/-- `OrderIndexedStorage::getAllOrders`: copy out the orders of the alive
slots in alive-list order. -/
def OrderIndexedStorage.getAllOrders (st : OrderIndexedStorage) : List Order :=
  st.aliveOrderIndexes.map st.orders

/-- `OrderCache::CompanyOrderVolume`. -/
structure CompanyOrderVolume where
  buy : Nat
  sell : Nat
deriving DecidableEq, Repr

/-- Insertion at `std::lower_bound`: place `v` immediately before the
first element that is `≥ v`. -/
def insertLB (v : Nat) : List Nat → List Nat
  | [] => [v]
  | x :: xs => if v ≤ x then v :: x :: xs else x :: insertLB v xs

/-- Conditional erase at `std::lower_bound`: if the first element that is
`≥ v` exists and equals `v`, erase that one occurrence; otherwise leave
the list unchanged. -/
def eraseLB (v : Nat) : List Nat → List Nat
  | [] => []
  | x :: xs => if v ≤ x then (if x = v then xs else x :: xs) else x :: eraseLB v xs

/-- `OrderCache::SecuritySnapshot`: side totals, the sorted vector of
per-add combined company volumes and the per-company (buy, sell) sums.
`companyVolumes` is read only through `operator[]`, hence the total
function with the default `(0, 0)`. -/
structure SecuritySnapshot where
  totalBuy : Nat
  totalSell : Nat
  maxVolumes : List Nat
  companyVolumes : List Char → CompanyOrderVolume

def emptySnapshot : SecuritySnapshot := ⟨0, 0, [], fun _ => ⟨0, 0⟩⟩

/-- `OrderCache::_addOrderToSnapshot` (src/OrderCache.cpp lines 187-204):
add `qty` to the side total and the company's side volume, then insert the
company's new combined volume into `maxVolumes`.  (The company's previous
combined volume is NOT removed.) -/
def addOrderToSnapshot (o : Order) (sn : SecuritySnapshot) : SecuritySnapshot :=
  let cv := sn.companyVolumes o.company
  let isBuy := o.side = buySideL
  let cv' : CompanyOrderVolume :=
    if isBuy then ⟨cv.buy + o.qty, cv.sell⟩ else ⟨cv.buy, cv.sell + o.qty⟩
  ⟨(if isBuy then sn.totalBuy + o.qty else sn.totalBuy),
   (if isBuy then sn.totalSell else sn.totalSell + o.qty),
   insertLB (cv'.buy + cv'.sell) sn.maxVolumes,
   fun c => if c = o.company then cv' else sn.companyVolumes c⟩

/-- `OrderCache::_removeOrderFromSnapshot` (src/OrderCache.cpp lines
206-225): compute the company's combined volume before the subtraction,
subtract `qty` from the side total and the company's side volume, then
erase one occurrence of the old combined volume from `maxVolumes` if it is
present at the lower bound. -/
def removeOrderFromSnapshot (o : Order) (sn : SecuritySnapshot) : SecuritySnapshot :=
  let cv := sn.companyVolumes o.company
  let isBuy := o.side = buySideL
  let rv := cv.buy + cv.sell
  let cv' : CompanyOrderVolume :=
    if isBuy then ⟨cv.buy - o.qty, cv.sell⟩ else ⟨cv.buy, cv.sell - o.qty⟩
  ⟨(if isBuy then sn.totalBuy - o.qty else sn.totalBuy),
   (if isBuy then sn.totalSell else sn.totalSell - o.qty),
   eraseLB rv sn.maxVolumes,
   fun c => if c = o.company then cv' else sn.companyVolumes c⟩

/-- The `OrderCache` state: primary store, the two secondary index maps
(key to bucket of slot indices) and the per-security snapshots. -/
structure OrderCache where
  orderStorage : OrderIndexedStorage
  userOrderIds : List Char → List Nat
  securityOrderIds : List Char → List Nat
  securitySnapshots : List Char → SecuritySnapshot

def emptyCache : OrderCache :=
  ⟨emptyStorage, fun _ => [], fun _ => [], fun _ => emptySnapshot⟩

/-- `OrderCache::_addOrderId`: append the index to the key's bucket
(creating the bucket if absent). -/
def addOrderId (m : List Char → List Nat) (key : List Char) (i : Nat) :
    List Char → List Nat :=
  fun k => if k = key then m key ++ [i] else m k

/-- Swap-pop at position `j`: overwrite position `j` with the last
element, then pop the last element. -/
def swapPopAt (l : List Nat) (j : Nat) : List Nat :=
  (l.set j (l.getLast?.getD 0)).dropLast

/-- `OrderCache::_removeOrderId`: locate the first occurrence of the index
in the key's bucket by linear scan, swap-pop it, and drop the key when the
bucket becomes empty (an absent key and an empty bucket are identified in
this model). -/
def removeOrderId (m : List Char → List Nat) (key : List Char) (i : Nat) :
    List Char → List Nat :=
  fun k =>
    if k = key then
      match (m key).findIdx? (· = i) with
      | none => m key
      | some j => swapPopAt (m key) j
    else m k

/-- Errors thrown by the cache (`std::invalid_argument`). -/
inductive CacheError where
  | invalidOrder (e : OrderValidationError)
  | idParseFailure
deriving DecidableEq, Repr

/-- `OrderCache::_cancelOrderByIndex` (src/OrderCache.cpp lines 164-174):
read the stored order, remove the index from both secondary indices,
fold the order out of its security's snapshot and erase the slot. -/
def cancelOrderByIndex (st : OrderCache) (index : Nat) : OrderCache :=
  let o := st.orderStorage.getOrder index
  ⟨st.orderStorage.cancelOrder index,
   removeOrderId st.userOrderIds o.user index,
   removeOrderId st.securityOrderIds o.securityId index,
   fun s => if s = o.securityId then removeOrderFromSnapshot o (st.securitySnapshots s)
            else st.securitySnapshots s⟩

/-- `OrderCache::addOrder` (src/OrderCache.cpp lines 17-46): validate,
decode the id, silently ignore a duplicate (alive) slot, otherwise commit
to both secondary indices, the snapshot and the primary store. -/
def addOrder (st : OrderCache) (o : Order) : Except CacheError OrderCache :=
  match validateOrder o with
  | some e => .error (.invalidOrder e)
  | none =>
    match idToIndex o.orderId with
    | none => .error .idParseFailure
    | some index =>
      if st.orderStorage.hasOrder index then .ok st
      else
        .ok ⟨st.orderStorage.addOrder o index,
             addOrderId st.userOrderIds o.user index,
             addOrderId st.securityOrderIds o.securityId index,
             fun s => if s = o.securityId then addOrderToSnapshot o (st.securitySnapshots s)
                      else st.securitySnapshots s⟩

/-- `OrderCache::cancelOrder` (src/OrderCache.cpp lines 48-62): decode the
id (throwing on failure), no-op when the slot is not alive, otherwise
cancel by index. -/
def cancelOrder (st : OrderCache) (id : List Char) : Except CacheError OrderCache :=
  match idToIndex id with
  | none => .error .idParseFailure
  | some index =>
    if st.orderStorage.hasOrder index then .ok (cancelOrderByIndex st index)
    else .ok st

/-- `OrderCache::cancelOrdersForUser` (src/OrderCache.cpp lines 64-78):
iterate a copy of the user's bucket, cancelling each still-alive slot. -/
def cancelOrdersForUser (st : OrderCache) (user : List Char) : OrderCache :=
  (st.userOrderIds user).foldl
    (fun s i => if s.orderStorage.hasOrder i then cancelOrderByIndex s i else s) st

/-- `OrderCache::cancelOrdersForSecIdWithMinimumQty` (src/OrderCache.cpp
lines 80-102): no-op on `minQty = 0`, otherwise iterate a copy of the
security's bucket, cancelling each still-alive slot whose stored order has
`qty ≥ minQty`. -/
def cancelOrdersForSecIdWithMinimumQty (st : OrderCache) (sec : List Char)
    (minQty : Nat) : OrderCache :=
  if minQty = 0 then st
  else
    (st.securityOrderIds sec).foldl
      (fun s i =>
        if s.orderStorage.hasOrder i ∧ minQty ≤ (s.orderStorage.getOrder i).qty then
          cancelOrderByIndex s i
        else s) st

/-- `OrderCache::getMatchingSizeForSecurity` (src/OrderCache.cpp lines
104-127): 0 for an absent security or a zero side total, otherwise the
closed form over the snapshot in signed 64-bit, returned as `unsigned
int`. -/
def getMatchingSizeForSecurity (st : OrderCache) (sec : List Char) : Nat :=
  let sn := st.securitySnapshots sec
  let B : Int := sn.totalBuy
  let S : Int := sn.totalSell
  if B = 0 ∨ S = 0 then 0
  else
    let V : Int := (sn.maxVolumes.getLast?.getD 0 : Nat)
    let exBuy := max 0 (V - S)
    let exSell := max 0 (V - B)
    let matchBuy := max 0 (B - exBuy)
    let matchSell := max 0 (S - exSell)
    (min matchBuy matchSell).toNat % 2 ^ 32

/-- `OrderCache::getAllOrders`. -/
def getAllOrders (st : OrderCache) : List Order :=
  st.orderStorage.getAllOrders

/-- One public mutating operation of the facade. -/
inductive Op where
  | add (o : Order)
  | cancel (id : List Char)
  | cancelUser (user : List Char)
  | cancelMinQty (sec : List Char) (minQty : Nat)

/-- Apply one operation; a thrown exception leaves the cache unchanged
(both throwing operations throw before any mutation). -/
def applyOp (st : OrderCache) (op : Op) : OrderCache :=
  match op with
  | .add o => match addOrder st o with | .ok s => s | .error _ => st
  | .cancel id => match cancelOrder st id with | .ok s => s | .error _ => st
  | .cancelUser u => cancelOrdersForUser st u
  | .cancelMinQty s q => cancelOrdersForSecIdWithMinimumQty st s q

/-- Run a sequence of operations from the empty cache. -/
def runOps (ops : List Op) : OrderCache :=
  ops.foldl applyOp emptyCache

/-- A cache state is reachable when some operation sequence produces it
from a freshly constructed cache. -/
def Reachable (st : OrderCache) : Prop :=
  ∃ ops : List Op, runOps ops = st

/-- Modelled from the spec: the order id wire format of section 6, "OrdId
followed by one or more decimal digits representing a non-negative 64-bit
integer".  Used only to state the claims; the executable source
counterparts are `validateOrderIdFormat` and `idToIndex`. -/
def WireFormatId (id : List Char) : Prop :=
  id.take ordIdPfx.length = ordIdPfx ∧ id.drop ordIdPfx.length ≠ [] ∧
  (id.drop ordIdPfx.length).all isDigitChar = true ∧
  natOfDigits (id.drop ordIdPfx.length) < 2 ^ 64

instance : DecidablePred WireFormatId := fun id => by
  unfold WireFormatId; infer_instance

/-- Filter for live buy orders of security `s`. -/
def isBuyOn (s : List Char) (o : Order) : Bool :=
  decide (o.securityId = s ∧ o.side = buySideL)

/-- Filter for live sell orders of security `s`. -/
def isSellOn (s : List Char) (o : Order) : Bool :=
  decide (o.securityId = s ∧ o.side = sellSideL)

/-- Sum of quantities of the live orders selected by `p`. -/
def liveQtySum (st : OrderCache) (p : Order → Bool) : Nat :=
  (((getAllOrders st).filter p).map Order.qty).sum

/-! ### Helper lemmas -/

theorem eraseLB_insertLB (v : Nat) (l : List Nat) : eraseLB v (insertLB v l) = l := by
  induction l with
  | nil => simp [insertLB, eraseLB]
  | cons x xs ih =>
    by_cases h : v ≤ x
    · simp [insertLB, eraseLB, h]
    · simp [insertLB, eraseLB, h, ih]

theorem findSub_zero_iff (pat l : List Char) :
    findSub pat l = some 0 ↔ l.take pat.length = pat := by
  cases l with
  | nil =>
    by_cases h : pat = []
    · simp [findSub, h]
    · simp [findSub, h, eq_comm]
  | cons x t =>
    by_cases h : (x :: t).take pat.length = pat
    · simp [findSub, h]
    · simp [findSub, h]

theorem validateOrderIdFormat_eq (id : List Char) :
    validateOrderIdFormat id =
      if id.take ordIdPfx.length = ordIdPfx ∧ (id.drop ordIdPfx.length).all isDigitChar = true
      then none else some .invalidOrderIdFormat := by
  unfold validateOrderIdFormat
  by_cases h1 : id.take ordIdPfx.length = ordIdPfx
  · rw [if_neg (by simp [findSub_zero_iff, h1])]
    by_cases h2 : (id.drop ordIdPfx.length).all isDigitChar <;> simp [h1, h2]
  · rw [if_pos (by simp [findSub_zero_iff, h1])]
    simp [h1]

theorem idToIndex_wireFormat (id : List Char) (h : WireFormatId id) :
    idToIndex id = some (natOfDigits (id.drop ordIdPfx.length)) := by
  obtain ⟨h1, h2, h3, h4⟩ := h
  unfold idToIndex
  have hlen : ¬ (id.length ≤ ordIdPfx.length) := by
    intro hle
    exact h2 (List.drop_eq_nil_of_le hle)
  rw [if_neg hlen, if_neg (by simp [h1])]
  unfold fromCharsU64
  rw [List.takeWhile_eq_self_iff.mpr (List.all_eq_true.mp h3)]
  rw [if_neg h2, if_pos (by omega)]

theorem set_eq_take_cons_drop {α : Type _} :
    ∀ (l : List α) (p : Nat) (a : α), p < l.length →
      l.set p a = l.take p ++ a :: l.drop (p + 1)
  | [], p, a, h => by simp at h
  | x :: xs, 0, a, _ => by simp
  | x :: xs, p + 1, a, h => by
    have ih := set_eq_take_cons_drop xs p a (by simpa using h)
    simp [List.set_cons_succ, ih]

theorem take_cons_drop_self {α : Type _} (l : List α) (p : Nat) (h : p < l.length) :
    l = l.take p ++ l[p] :: l.drop (p + 1) := by
  conv_lhs => rw [← List.take_append_drop p l]
  rw [List.drop_eq_getElem_cons h]

theorem getLastD_eq_getElem (l : List Nat) (h : 0 < l.length) :
    l.getLast?.getD 0 = l[l.length - 1] := by
  have hne : l ≠ [] := by
    intro e; rw [e] at h; simp at h
  rw [List.getLast?_eq_getLast l hne, Option.getD_some, List.getLast_eq_getElem]

/-- Splitting a list at a valid position. -/
theorem get_decomp {α : Type _} (M : List α) (p : Nat) (hp : p < M.length) :
    ∃ T x D, M = T ++ x :: D ∧ T.length = p ∧ M.get ⟨p, hp⟩ = x := by
  refine ⟨M.take p, M.get ⟨p, hp⟩, M.drop (p + 1), ?_, ?_, rfl⟩
  · rw [List.get_eq_getElem]; exact take_cons_drop_self M p hp
  · rw [List.length_take]; omega

/-- Core of the swap-pop argument: replacing the element at the split
point by `a` and popping the trailing `a` removes exactly `x`. -/
theorem set_concat_perm (T D : List Nat) (x a : Nat) :
    ((T ++ x :: D) ++ [a]).Perm (x :: (T ++ x :: D).set T.length a) := by
  have hset : (T ++ x :: D).set T.length a = T ++ a :: D := by
    rw [List.set_append, if_neg (by omega), Nat.sub_self]
    rfl
  rw [hset]
  have h1 : (T ++ x :: D) ++ [a] = T ++ x :: (D ++ [a]) := by simp
  rw [h1]
  have h2 : (T ++ x :: (D ++ [a])).Perm (x :: (T ++ (D ++ [a]))) := List.perm_middle
  refine h2.trans (List.Perm.cons _ ?_)
  exact List.Perm.append_left T (List.perm_append_singleton a D)

/-- The swap-pop removal used by both the alive-index list and the index
buckets: overwriting position `p` with the last element and popping
removes precisely the element at `p`, up to permutation. -/
theorem swapPop_perm (l : List Nat) (p : Nat) (h : p < l.length) :
    l.Perm (l.get ⟨p, h⟩ :: (l.set p (l.getLast?.getD 0)).dropLast) := by
  have hne : l ≠ [] := by
    intro e; rw [e] at h; simp at h
  obtain ⟨M, a, rfl⟩ : ∃ M a, l = M ++ [a] :=
    ⟨l.dropLast, l.getLast hne, (List.dropLast_append_getLast hne).symm⟩
  rw [List.getLast?_concat, Option.getD_some]
  by_cases hp : p < M.length
  · obtain ⟨T, x, D, hM, hT, hx⟩ := get_decomp M p hp
    have hget : (M ++ [a]).get ⟨p, h⟩ = x := by
      rw [← hx]
      simp only [List.get_eq_getElem]
      exact List.getElem_append_left hp
    have hsetp : (M ++ [a]).set p a = M.set p a ++ [a] := by
      rw [List.set_append, if_pos hp]
    rw [hget, hsetp, List.dropLast_concat, hM, ← hT]
    exact set_concat_perm T D x a
  · have hpe : p = M.length := by
      have := h
      simp only [List.length_append, List.length_cons, List.length_nil] at this
      omega
    have hget : (M ++ [a]).get ⟨p, h⟩ = a := by
      simp only [List.get_eq_getElem]
      rw [List.getElem_append_right (by omega)]
      simp [hpe]
    have hsetp : (M ++ [a]).set p a = M ++ [a] := by
      rw [List.set_append, if_neg hp, hpe, Nat.sub_self]
      rfl
    rw [hget, hsetp, List.dropLast_concat]
    exact List.perm_append_singleton a M

/-- Elements of the swap-popped alive list, in terms of the original. -/
theorem swapPop_get (l : List Nat) (p : Nat) (hp : p < l.length)
    (q : Nat) (hq1 : q < ((l.set p (l.getLast?.getD 0)).dropLast).length)
    (hq2 : q < l.length) (hl : l.length - 1 < l.length) :
    ((l.set p (l.getLast?.getD 0)).dropLast).get ⟨q, hq1⟩ =
      if p = q then l.get ⟨l.length - 1, hl⟩ else l.get ⟨q, hq2⟩ := by
  have hpos : 0 < l.length := Nat.lt_of_le_of_lt (Nat.zero_le p) hp
  have hlast : l.getLast?.getD 0 = l.get ⟨l.length - 1, hl⟩ := by
    rw [List.get_eq_getElem]; exact getLastD_eq_getElem l hpos
  simp only [List.get_eq_getElem]
  rw [List.getElem_dropLast _ q hq1, List.getElem_set]
  by_cases hpq : p = q <;> simp [hpq, getLastD_eq_getElem l hpos]

theorem swapPop_length (l : List Nat) (p : Nat) :
    ((l.set p (l.getLast?.getD 0)).dropLast).length = l.length - 1 := by
  simp

/-! ### The cache invariant -/

/-- Invariant of reachable cache states: the position vector and the alive
list are mutually inverse, the snapshot side totals agree with the sums
over the live orders, and every live slot stores a validated order whose
id decodes. -/
structure CacheInv (st : OrderCache) : Prop where
  pos_get : ∀ i p, st.orderStorage.orderPositions i = some p →
    ∃ h : p < st.orderStorage.aliveOrderIndexes.length,
      st.orderStorage.aliveOrderIndexes.get ⟨p, h⟩ = i
  get_pos : ∀ p (h : p < st.orderStorage.aliveOrderIndexes.length),
    st.orderStorage.orderPositions (st.orderStorage.aliveOrderIndexes.get ⟨p, h⟩) = some p
  buy_total : ∀ s, (st.securitySnapshots s).totalBuy = liveQtySum st (isBuyOn s)
  sell_total : ∀ s, (st.securitySnapshots s).totalSell = liveQtySum st (isSellOn s)
  good : ∀ i, st.orderStorage.hasOrder i = true →
    validateOrder (st.orderStorage.orders i) = none ∧
    (idToIndex (st.orderStorage.orders i).orderId).isSome = true

theorem not_alive_not_mem (st : OrderCache) (inv : CacheInv st) (i : Nat)
    (h : st.orderStorage.hasOrder i = false) :
    i ∉ st.orderStorage.aliveOrderIndexes := by
  intro hmem
  obtain ⟨q, hq, hget⟩ := List.mem_iff_getElem.mp hmem
  have := inv.get_pos q hq
  rw [List.get_eq_getElem, hget] at this
  unfold OrderIndexedStorage.hasOrder at h
  rw [this] at h
  simp at h

theorem cacheInv_empty : CacheInv emptyCache := by
  refine ⟨?_, ?_, ?_, ?_, ?_⟩
  · intro i p h
    simp [emptyCache, emptyStorage] at h
  · intro p h
    simp [emptyCache, emptyStorage] at h
  · intro s; rfl
  · intro s; rfl
  · intro i h
    simp [emptyCache, emptyStorage, OrderIndexedStorage.hasOrder] at h

theorem sum_filter_perm_cons (o : Order) (L R : List Order) (pr : Order → Bool)
    (hperm : L.Perm (o :: R)) :
    ((L.filter pr).map Order.qty).sum
      = (if pr o then o.qty else 0) + ((R.filter pr).map Order.qty).sum := by
  rw [((hperm.filter pr).map Order.qty).sum_eq, List.filter_cons]
  by_cases h : pr o <;> simp [h]

theorem sum_filter_concat (o : Order) (L : List Order) (pr : Order → Bool) :
    (((L ++ [o]).filter pr).map Order.qty).sum
      = ((L.filter pr).map Order.qty).sum + (if pr o then o.qty else 0) := by
  rw [List.filter_append]
  by_cases h : pr o <;> simp [h, List.filter_cons]

/-- What passing the validator guarantees about an order's fields. -/
theorem validateOrder_none_spec (o : Order) (h : validateOrder o = none) :
    o.orderId ≠ [] ∧ o.orderId.take ordIdPfx.length = ordIdPfx ∧
    (o.orderId.drop ordIdPfx.length).all isDigitChar = true ∧
    o.securityId ≠ [] ∧ o.user ≠ [] ∧ o.company ≠ [] ∧
    (o.side = buySideL ∨ o.side = sellSideL) ∧ 0 < o.qty := by
  unfold validateOrder at h
  by_cases h1 : o.orderId = []
  · simp [h1] at h
  rw [if_neg h1, validateOrderIdFormat_eq] at h
  by_cases h2 : o.orderId.take ordIdPfx.length = ordIdPfx ∧
      (o.orderId.drop ordIdPfx.length).all isDigitChar = true
  swap
  · rw [if_neg h2] at h
    simp at h
  rw [if_pos h2] at h
  dsimp only at h
  by_cases h3 : o.securityId = []
  · simp [h3] at h
  rw [if_neg h3] at h
  by_cases h4 : o.user = []
  · simp [h4] at h
  rw [if_neg h4] at h
  by_cases h5 : o.company = []
  · simp [h5] at h
  rw [if_neg h5] at h
  by_cases h6 : o.side ≠ buySideL ∧ o.side ≠ sellSideL
  · simp [h6] at h
  rw [if_neg h6] at h
  by_cases h7 : o.qty = 0
  · simp [h7] at h
  refine ⟨h1, h2.1, h2.2, h3, h4, h5, ?_, Nat.pos_of_ne_zero h7⟩
  by_cases hb : o.side = buySideL
  · exact Or.inl hb
  · refine Or.inr ?_
    by_contra hs
    exact h6 ⟨hb, hs⟩

/-- Effect of `OrderIndexedStorage::cancelOrder` on a storage that
satisfies the positional invariant: the orders array is untouched, the
alive list loses exactly the cancelled slot, the positional invariant is
re-established, and no slot becomes alive. -/
theorem storage_cancel_inv (sg : OrderIndexedStorage) (i p : Nat)
    (hp : sg.orderPositions i = some p)
    (hpl : p < sg.aliveOrderIndexes.length)
    (hpget : sg.aliveOrderIndexes.get ⟨p, hpl⟩ = i)
    (getpos : ∀ q (h : q < sg.aliveOrderIndexes.length),
      sg.orderPositions (sg.aliveOrderIndexes.get ⟨q, h⟩) = some q)
    (posget : ∀ j q, sg.orderPositions j = some q →
      ∃ h : q < sg.aliveOrderIndexes.length, sg.aliveOrderIndexes.get ⟨q, h⟩ = j) :
    (∀ j q, (sg.cancelOrder i).orderPositions j = some q →
      ∃ h : q < (sg.cancelOrder i).aliveOrderIndexes.length,
        (sg.cancelOrder i).aliveOrderIndexes.get ⟨q, h⟩ = j) ∧
    (∀ q (h : q < (sg.cancelOrder i).aliveOrderIndexes.length),
      (sg.cancelOrder i).orderPositions ((sg.cancelOrder i).aliveOrderIndexes.get ⟨q, h⟩)
        = some q) ∧
    (sg.cancelOrder i).orders = sg.orders ∧
    sg.aliveOrderIndexes.Perm (i :: (sg.cancelOrder i).aliveOrderIndexes) ∧
    (∀ j, (sg.cancelOrder i).hasOrder j = true → sg.hasOrder j = true) := by
  have hnpos : 0 < sg.aliveOrderIndexes.length := by omega
  have hlastlt : sg.aliveOrderIndexes.length - 1 < sg.aliveOrderIndexes.length := by omega
  have hlastval : sg.aliveOrderIndexes.getLast?.getD 0
      = sg.aliveOrderIndexes.get ⟨sg.aliveOrderIndexes.length - 1, hlastlt⟩ := by
    rw [List.get_eq_getElem]
    exact getLastD_eq_getElem _ hnpos
  have hinj : ∀ q1 q2 (h1 : q1 < sg.aliveOrderIndexes.length)
      (h2 : q2 < sg.aliveOrderIndexes.length),
      sg.aliveOrderIndexes.get ⟨q1, h1⟩ = sg.aliveOrderIndexes.get ⟨q2, h2⟩ → q1 = q2 := by
    intro q1 q2 h1 h2 he
    have g1 := getpos q1 h1
    have g2 := getpos q2 h2
    rw [he] at g1
    rw [g2] at g1
    exact (Option.some.inj g1).symm
  have hcanc : sg.cancelOrder i =
      ⟨sg.orders,
       fun j => if j = i then none
                else if j = sg.aliveOrderIndexes.getLast?.getD 0 then some p
                else sg.orderPositions j,
       (sg.aliveOrderIndexes.set p (sg.aliveOrderIndexes.getLast?.getD 0)).dropLast⟩ := by
    unfold OrderIndexedStorage.cancelOrder
    rw [hp]
  have hnewlen : ((sg.aliveOrderIndexes.set p
      (sg.aliveOrderIndexes.getLast?.getD 0)).dropLast).length
      = sg.aliveOrderIndexes.length - 1 := swapPop_length _ _
  rw [hcanc]
  dsimp only
  refine ⟨?_, ?_, rfl, ?_, ?_⟩
  · -- the positions function still points into the alive list
    intro j q hjq
    by_cases hji : j = i
    · simp [hji] at hjq
    by_cases hjl : j = sg.aliveOrderIndexes.getLast?.getD 0
    · rw [if_neg hji, if_pos hjl] at hjq
      have hpq : p = q := Option.some.inj hjq
      subst hpq
      have hpn : p ≠ sg.aliveOrderIndexes.length - 1 := by
        intro he
        apply hji
        rw [hjl, hlastval]
        rw [← hpget]
        congr 1
        exact (Fin.ext he.symm)
      have hplt : p < sg.aliveOrderIndexes.length - 1 := by omega
      refine ⟨by omega, ?_⟩
      have := swapPop_get sg.aliveOrderIndexes p hpl p (by omega) hpl hlastlt
      rw [this, if_pos rfl, ← hlastval, hjl]
    · rw [if_neg hji, if_neg hjl] at hjq
      obtain ⟨hq, hgq⟩ := posget j q hjq
      have hqp : q ≠ p := by
        intro he
        apply hji
        rw [← hgq, ← hpget]
        congr 1
        exact Fin.ext he
      have hqn : q ≠ sg.aliveOrderIndexes.length - 1 := by
        intro he
        apply hjl
        rw [← hgq, hlastval]
        congr 1
        exact Fin.ext he
      have hqlt : q < sg.aliveOrderIndexes.length - 1 := by omega
      refine ⟨by omega, ?_⟩
      have := swapPop_get sg.aliveOrderIndexes p hpl q (by omega) hq hlastlt
      rw [this, if_neg (by omega), hgq]
  · -- every alive-list entry points back to its position
    intro q hq
    have hqlt : q < sg.aliveOrderIndexes.length - 1 := by
      rw [hnewlen] at hq
      exact hq
    have hqn : q < sg.aliveOrderIndexes.length := by omega
    have he := swapPop_get sg.aliveOrderIndexes p hpl q hq hqn hlastlt
    by_cases hpq : p = q
    · rw [he, if_pos hpq]
      have h1 : sg.aliveOrderIndexes.get ⟨sg.aliveOrderIndexes.length - 1, hlastlt⟩ ≠ i := by
        intro hei
        have := getpos (sg.aliveOrderIndexes.length - 1) hlastlt
        rw [hei, hp] at this
        have := Option.some.inj this
        omega
      rw [if_neg h1, if_pos hlastval.symm, hpq]
    · rw [he, if_neg hpq]
      have h1 : sg.aliveOrderIndexes.get ⟨q, hqn⟩ ≠ i := by
        intro hei
        have := getpos q hqn
        rw [hei, hp] at this
        have := Option.some.inj this
        omega
      have h2 : sg.aliveOrderIndexes.get ⟨q, hqn⟩ ≠ sg.aliveOrderIndexes.getLast?.getD 0 := by
        rw [hlastval]
        intro hei
        have := hinj q (sg.aliveOrderIndexes.length - 1) hqn hlastlt hei
        omega
      rw [if_neg h1, if_neg h2]
      exact getpos q hqn
  · -- the alive list loses exactly slot i
    have := swapPop_perm sg.aliveOrderIndexes p hpl
    rw [hpget] at this
    exact this
  · -- no slot becomes alive
    intro j hj
    unfold OrderIndexedStorage.hasOrder at hj ⊢
    dsimp only at hj
    by_cases hji : j = i
    · simp [hji] at hj
    by_cases hjl : j = sg.aliveOrderIndexes.getLast?.getD 0
    · have : sg.orderPositions j = some (sg.aliveOrderIndexes.length - 1) := by
        rw [hjl, hlastval]
        exact getpos _ hlastlt
      rw [this]
      rfl
    · rw [if_neg hji, if_neg hjl] at hj
      exact hj

theorem inv_cancelOrderByIndex (st : OrderCache) (i : Nat)
    (inv : CacheInv st) (halive : st.orderStorage.hasOrder i = true) :
    CacheInv (cancelOrderByIndex st i) := by
  obtain ⟨p, hp⟩ : ∃ p, st.orderStorage.orderPositions i = some p := by
    unfold OrderIndexedStorage.hasOrder at halive
    exact Option.isSome_iff_exists.mp halive
  obtain ⟨hpl, hpget⟩ := inv.pos_get i p hp
  obtain ⟨npos, ngp, nord, nperm, nhas⟩ :=
    storage_cancel_inv st.orderStorage i p hp hpl hpget inv.get_pos inv.pos_get
  have hpermOrders : (getAllOrders st).Perm
      ((st.orderStorage.getOrder i) :: getAllOrders (cancelOrderByIndex st i)) := by
    have h2 := nperm.map st.orderStorage.orders
    have h3 : (cancelOrderByIndex st i).orderStorage = st.orderStorage.cancelOrder i := rfl
    simp only [getAllOrders, OrderIndexedStorage.getAllOrders,
      OrderIndexedStorage.getOrder, h3, nord]
    simpa using h2
  have hbuy : ∀ pr : Order → Bool, liveQtySum st pr
      = (if pr (st.orderStorage.getOrder i) then (st.orderStorage.getOrder i).qty else 0)
        + liveQtySum (cancelOrderByIndex st i) pr := by
    intro pr
    exact sum_filter_perm_cons _ _ _ pr hpermOrders
  have hsnap : ∀ s, (cancelOrderByIndex st i).securitySnapshots s
      = if s = (st.orderStorage.getOrder i).securityId
        then removeOrderFromSnapshot (st.orderStorage.getOrder i) (st.securitySnapshots s)
        else st.securitySnapshots s := fun s => rfl
  refine ⟨npos, ngp, ?_, ?_, ?_⟩
  · -- buy totals
    intro s
    rw [hsnap s]
    by_cases hsec : s = (st.orderStorage.getOrder i).securityId
    · rw [if_pos hsec]
      by_cases hside : (st.orderStorage.getOrder i).side = buySideL
      · have hpr : isBuyOn s (st.orderStorage.getOrder i) = true := by
          simp [isBuyOn, hsec.symm, hside]
        have h1 := inv.buy_total s
        rw [hbuy (isBuyOn s), hpr] at h1
        simp only [removeOrderFromSnapshot, if_pos hside]
        rw [h1]
        simp
      · have hpr : isBuyOn s (st.orderStorage.getOrder i) = false := by
          simp [isBuyOn, hside]
        have h1 := inv.buy_total s
        rw [hbuy (isBuyOn s), hpr] at h1
        simp only [removeOrderFromSnapshot, if_neg hside]
        rw [h1]
        simp
    · rw [if_neg hsec]
      have hpr : isBuyOn s (st.orderStorage.getOrder i) = false := by
        simp only [isBuyOn, decide_eq_false_iff_not]
        intro hcon
        exact hsec (hcon.1.symm)
      have h1 := inv.buy_total s
      rw [hbuy (isBuyOn s), hpr] at h1
      rw [h1]
      simp
  · -- sell totals
    intro s
    rw [hsnap s]
    by_cases hsec : s = (st.orderStorage.getOrder i).securityId
    · rw [if_pos hsec]
      by_cases hss : (st.orderStorage.getOrder i).side = sellSideL
      · have hside : ¬ (st.orderStorage.getOrder i).side = buySideL := by
          rw [hss]; decide
        have hpr : isSellOn s (st.orderStorage.getOrder i) = true := by
          simp [isSellOn, hsec.symm, hss]
        have h1 := inv.sell_total s
        rw [hbuy (isSellOn s), hpr] at h1
        simp only [removeOrderFromSnapshot, if_neg hside]
        rw [h1]
        simp
      · have hside : (st.orderStorage.getOrder i).side = buySideL := by
          have hor : (st.orderStorage.getOrder i).side = buySideL ∨
              (st.orderStorage.getOrder i).side = sellSideL :=
            (validateOrder_none_spec _ (inv.good i halive).1).2.2.2.2.2.2.1
          rcases hor with hb | hs
          · exact hb
          · exact absurd hs hss
        have hpr : isSellOn s (st.orderStorage.getOrder i) = false := by
          simp [isSellOn, hss]
        have h1 := inv.sell_total s
        rw [hbuy (isSellOn s), hpr] at h1
        simp only [removeOrderFromSnapshot, if_pos hside]
        rw [h1]
        simp
    · rw [if_neg hsec]
      have hpr : isSellOn s (st.orderStorage.getOrder i) = false := by
        simp only [isSellOn, decide_eq_false_iff_not]
        intro hcon
        exact hsec (hcon.1.symm)
      have h1 := inv.sell_total s
      rw [hbuy (isSellOn s), hpr] at h1
      rw [h1]
      simp
  · -- live slots keep validated orders
    intro j hj
    have hjold : st.orderStorage.hasOrder j = true := nhas j hj
    have h1 := inv.good j hjold
    have h2 : (cancelOrderByIndex st i).orderStorage.orders = st.orderStorage.orders := nord
    rw [h2]
    exact h1

/-- The committed branch of `addOrder` preserves the invariant. -/
theorem inv_addOrder_commit (st : OrderCache) (o : Order) (idx : Nat)
    (inv : CacheInv st)
    (hv : validateOrder o = none)
    (hd : idToIndex o.orderId = some idx)
    (hh : st.orderStorage.hasOrder idx = false) :
    CacheInv ⟨st.orderStorage.addOrder o idx,
              addOrderId st.userOrderIds o.user idx,
              addOrderId st.securityOrderIds o.securityId idx,
              fun s => if s = o.securityId then addOrderToSnapshot o (st.securitySnapshots s)
                       else st.securitySnapshots s⟩ := by
  have hpn : st.orderStorage.orderPositions idx = none := by
    unfold OrderIndexedStorage.hasOrder at hh
    exact Option.not_isSome_iff_eq_none.mp (by simp [hh])
  have hnotmem : idx ∉ st.orderStorage.aliveOrderIndexes := not_alive_not_mem st inv idx hh
  have hgetAll : getAllOrders ⟨st.orderStorage.addOrder o idx,
      addOrderId st.userOrderIds o.user idx,
      addOrderId st.securityOrderIds o.securityId idx,
      fun s => if s = o.securityId then addOrderToSnapshot o (st.securitySnapshots s)
               else st.securitySnapshots s⟩ = getAllOrders st ++ [o] := by
    simp only [getAllOrders, OrderIndexedStorage.getAllOrders, OrderIndexedStorage.addOrder]
    rw [List.map_append]
    congr 1
    · refine List.map_congr_left ?_
      intro j hj
      have : j ≠ idx := by
        intro he; rw [he] at hj; exact hnotmem hj
      simp [this]
    · simp
  refine ⟨?_, ?_, ?_, ?_, ?_⟩
  · -- pos_get
    intro j q hjq
    simp only [OrderIndexedStorage.addOrder] at hjq ⊢
    by_cases hji : j = idx
    · rw [if_pos hji] at hjq
      have hq : q = st.orderStorage.aliveOrderIndexes.length := (Option.some.inj hjq).symm
      subst hq
      refine ⟨by simp, ?_⟩
      simp only [List.get_eq_getElem]
      rw [List.getElem_append_right (le_refl _)]
      simp [hji]
    · rw [if_neg hji] at hjq
      obtain ⟨hq, hgq⟩ := inv.pos_get j q hjq
      refine ⟨by simp; omega, ?_⟩
      simp only [List.get_eq_getElem] at hgq ⊢
      rw [List.getElem_append_left hq]
      exact hgq
  · -- get_pos
    intro q hq
    simp only [OrderIndexedStorage.addOrder] at hq ⊢
    have hq' : q < st.orderStorage.aliveOrderIndexes.length + 1 := by
      simpa using hq
    by_cases hqe : q = st.orderStorage.aliveOrderIndexes.length
    · have : (st.orderStorage.aliveOrderIndexes ++ [idx]).get ⟨q, hq⟩ = idx := by
        simp only [List.get_eq_getElem]
        rw [List.getElem_append_right (by omega)]
        simp [hqe]
      rw [this, if_pos rfl, hqe]
    · have hqlt : q < st.orderStorage.aliveOrderIndexes.length := by omega
      have hge : (st.orderStorage.aliveOrderIndexes ++ [idx]).get ⟨q, hq⟩
          = st.orderStorage.aliveOrderIndexes.get ⟨q, hqlt⟩ := by
        simp only [List.get_eq_getElem]
        exact List.getElem_append_left hqlt
      rw [hge]
      have hne : st.orderStorage.aliveOrderIndexes.get ⟨q, hqlt⟩ ≠ idx := by
        intro he
        have := inv.get_pos q hqlt
        rw [he, hpn] at this
        exact Option.noConfusion this
      rw [if_neg hne]
      exact inv.get_pos q hqlt
  · -- buy totals
    intro s
    dsimp only
    unfold liveQtySum
    rw [hgetAll, sum_filter_concat]
    by_cases hsec : s = o.securityId
    · rw [if_pos hsec]
      unfold addOrderToSnapshot
      dsimp only
      by_cases hside : o.side = buySideL
      · rw [if_pos hside]
        have hpr : isBuyOn s o = true := by simp [isBuyOn, hsec.symm, hside]
        rw [inv.buy_total s]
        simp [hpr, liveQtySum]
      · rw [if_neg hside]
        have hpr : isBuyOn s o = false := by simp [isBuyOn, hside]
        rw [inv.buy_total s]
        simp [hpr, liveQtySum]
    · rw [if_neg hsec]
      have hpr : isBuyOn s o = false := by
        simp only [isBuyOn, decide_eq_false_iff_not]
        intro hcon
        exact hsec hcon.1.symm
      rw [inv.buy_total s]
      simp [hpr, liveQtySum]
  · -- sell totals
    intro s
    dsimp only
    unfold liveQtySum
    rw [hgetAll, sum_filter_concat]
    by_cases hsec : s = o.securityId
    · rw [if_pos hsec]
      unfold addOrderToSnapshot
      dsimp only
      by_cases hside : o.side = buySideL
      · rw [if_pos hside]
        have hpr : isSellOn s o = false := by
          simp only [isSellOn, decide_eq_false_iff_not]
          intro hcon
          rw [hside] at hcon
          exact absurd hcon.2 (by decide)
        rw [inv.sell_total s]
        simp [hpr, liveQtySum]
      · rw [if_neg hside]
        have hss : o.side = sellSideL := by
          have hor := (validateOrder_none_spec o hv).2.2.2.2.2.2.1
          rcases hor with hb | hs
          · exact absurd hb hside
          · exact hs
        have hpr : isSellOn s o = true := by simp [isSellOn, hsec.symm, hss]
        rw [inv.sell_total s]
        simp [hpr, liveQtySum]
    · rw [if_neg hsec]
      have hpr : isSellOn s o = false := by
        simp only [isSellOn, decide_eq_false_iff_not]
        intro hcon
        exact hsec hcon.1.symm
      rw [inv.sell_total s]
      simp [hpr, liveQtySum]
  · -- live slots keep validated orders
    intro j hj
    simp only [OrderIndexedStorage.hasOrder, OrderIndexedStorage.addOrder] at hj
    dsimp only [OrderIndexedStorage.addOrder]
    by_cases hji : j = idx
    · rw [if_pos hji]
      refine ⟨hv, ?_⟩
      rw [hd]
      rfl
    · rw [if_neg hji]
      rw [if_neg hji] at hj
      exact inv.good j hj

theorem inv_applyOp (st : OrderCache) (op : Op) (inv : CacheInv st) :
    CacheInv (applyOp st op) := by
  cases op with
  | add o =>
    simp only [applyOp, addOrder]
    cases hv : validateOrder o with
    | some e => exact inv
    | none =>
      cases hd : idToIndex o.orderId with
      | none => exact inv
      | some idx =>
        dsimp only
        by_cases hh : st.orderStorage.hasOrder idx
        · rw [if_pos hh]
          exact inv
        · rw [if_neg hh]
          exact inv_addOrder_commit st o idx inv hv hd (by simpa using hh)
  | cancel id =>
    simp only [applyOp, cancelOrder]
    cases hd : idToIndex id with
    | none => exact inv
    | some idx =>
      dsimp only
      by_cases hh : st.orderStorage.hasOrder idx
      · rw [if_pos hh]
        exact inv_cancelOrderByIndex st idx inv hh
      · rw [if_neg hh]
        exact inv
  | cancelUser u =>
    simp only [applyOp, cancelOrdersForUser]
    generalize st.userOrderIds u = l
    induction l generalizing st with
    | nil => exact inv
    | cons x xs ih =>
      simp only [List.foldl_cons]
      by_cases hh : st.orderStorage.hasOrder x
      · rw [if_pos hh]
        exact ih _ (inv_cancelOrderByIndex st x inv hh)
      · rw [if_neg hh]
        exact ih _ inv
  | cancelMinQty sec q =>
    simp only [applyOp, cancelOrdersForSecIdWithMinimumQty]
    by_cases hq : q = 0
    · rw [if_pos hq]
      exact inv
    · rw [if_neg hq]
      generalize st.securityOrderIds sec = l
      induction l generalizing st with
      | nil => exact inv
      | cons x xs ih =>
        simp only [List.foldl_cons]
        by_cases hh : st.orderStorage.hasOrder x ∧ q ≤ (st.orderStorage.getOrder x).qty
        · rw [if_pos hh]
          exact ih _ (inv_cancelOrderByIndex st x inv hh.1)
        · rw [if_neg hh]
          exact ih _ inv

theorem runOps_inv (ops : List Op) : ∀ st, CacheInv st → CacheInv (ops.foldl applyOp st) := by
  induction ops with
  | nil => intro st inv; exact inv
  | cons op rest ih =>
    intro st inv
    exact ih _ (inv_applyOp st op inv)

theorem reachable_inv (st : OrderCache) (h : Reachable st) : CacheInv st := by
  obtain ⟨ops, rfl⟩ := h
  exact runOps_inv ops emptyCache cacheInv_empty

end OC

namespace OC

/-! ### Concrete scenario inputs -/

def secSEC : List Char := "SEC".data

/-- The six orders of scenario S3 of the specification. -/
def s3o1 : Order := ⟨"OrdId1".data, "SEC".data, "Buy".data, 1000, "u1".data, "CompA".data⟩
def s3o2 : Order := ⟨"OrdId2".data, "SEC".data, "Sell".data, 3000, "u2".data, "CompB".data⟩
def s3o3 : Order := ⟨"OrdId3".data, "SEC".data, "Buy".data, 500, "u3".data, "CompA".data⟩
def s3o4 : Order := ⟨"OrdId4".data, "SEC".data, "Buy".data, 600, "u4".data, "CompC".data⟩
def s3o5 : Order := ⟨"OrdId5".data, "SEC".data, "Sell".data, 100, "u5".data, "CompB".data⟩
def s3o6 : Order := ⟨"OrdId6".data, "SEC".data, "Sell".data, 2000, "u6".data, "CompC".data⟩

def opsS3 : List Op :=
  [.add s3o1, .add s3o2, .add s3o3, .add s3o4, .add s3o5, .add s3o6]

/-- The cache after the six S3 adds. -/
def s3State : OrderCache := runOps opsS3

/-- The cache after S3 followed by the S5 bulk cancel with minimum
quantity 1000. -/
def s5State : OrderCache := cancelOrdersForSecIdWithMinimumQty s3State secSEC 1000

/-- Two buy orders by the same company on one security. -/
def c2o1 : Order := ⟨"OrdId1".data, "SEC".data, "Buy".data, 1000, "u1".data, "CompA".data⟩
def c2o2 : Order := ⟨"OrdId2".data, "SEC".data, "Buy".data, 500, "u2".data, "CompA".data⟩

def c2State : OrderCache := runOps [.add c2o1, .add c2o2]

/-- History leaving only CompA orders live, with a stale entry dominating
the snapshot's volume multiset. -/
def c3o1 : Order := ⟨"OrdId1".data, "SEC".data, "Buy".data, 4, "u1".data, "CompA".data⟩
def c3o2 : Order := ⟨"OrdId2".data, "SEC".data, "Sell".data, 6, "u2".data, "CompA".data⟩
def c3o3 : Order := ⟨"OrdId3".data, "SEC".data, "Buy".data, 5, "u3".data, "CompA".data⟩
def c3o4 : Order := ⟨"OrdId4".data, "SEC".data, "Sell".data, 15, "u4".data, "CompB".data⟩

def c3State : OrderCache := runOps
  [.add c3o1, .add c3o2, .add c3o3, .add c3o4,
   .cancel "OrdId1".data, .cancel "OrdId4".data]

end OC

namespace OC

/-- Claim C1 (code bug): starting from the empty cache, after the six S3
adds, `cancelOrdersForSecIdWithMinimumQty(SEC, 1000)` cancels exactly
OrdId1, OrdId2 and OrdId6 (leaving OrdId3, OrdId4, OrdId5 live, here in
the storage's swap-pop order), but the subsequent
`getMatchingSizeForSecurity(SEC)` returns 0, not the 100 the claim and
the spec's scenario S5 state: the snapshot's `maxVolumes` still holds the
stale entries 1000 (CompA) and 3000 (CompB), so V = 3000 swamps both
sides. -/
theorem c1_s5_matching_bug :
    getAllOrders s5State = [s3o4, s3o5, s3o3] ∧
    (s5State.securitySnapshots secSEC).maxVolumes = [600, 1000, 3000] ∧
    getMatchingSizeForSecurity s5State secSEC = 0 := by
  refine ⟨by decide, by decide, by decide⟩

/-- Claim C2 (code bug): after adding two buy orders by CompA on SEC,
`maxVolumes` holds two entries for CompA (the stale 1000 and the current
1500) although `companyVolumes` correctly records (1500, 0) and both
orders are live; the claimed one-entry-per-company invariant fails
because `_addOrderToSnapshot` never removes the company's previous
combined volume. -/
theorem c2_snapshot_bug :
    (c2State.securitySnapshots secSEC).maxVolumes = [1000, 1500] ∧
    (c2State.securitySnapshots secSEC).companyVolumes ("CompA".data) = ⟨1500, 0⟩ ∧
    getAllOrders c2State = [c2o1, c2o2] := by
  refine ⟨by decide, by decide, by decide⟩

/-- Claim C3 (code bug): a reachable state in which every live order on
SEC belongs to CompA yet `getMatchingSizeForSecurity(SEC)` returns 1
instead of 0: the stale `maxVolumes` entry 10 underestimates CompA's
combined volume 11, so the no-self-match exclusion fails. -/
theorem c3_no_self_match_bug :
    (∀ o ∈ getAllOrders c3State, o.company = "CompA".data) ∧
    getAllOrders c3State ≠ [] ∧
    getMatchingSizeForSecurity c3State secSEC = 1 := by
  refine ⟨by decide, by decide, by decide⟩

end OC

namespace OC

/-- Counterexample to claim C4 as stated: "OrdId1x" is not of the wire
format, yet `cancelOrder` does not fail - the decode ignores the trailing
garbage, decodes slot 1, finds it dead and silently no-ops. -/
theorem c4_counterexample :
    cancelOrder emptyCache ("OrdId1x".data) = Except.ok emptyCache ∧
    ¬ WireFormatId ("OrdId1x".data) := by
  refine ⟨rfl, by decide⟩

/-- Claim C4 (amended): `cancelOrder` fails exactly when the id fails to
decode (`_idToIndex` returns nothing); a failing call leaves the cache
unchanged, and a decodable id whose slot is not alive is a silent no-op
with no error. -/
theorem c4_cancel_error_contract : ∀ (st : OrderCache) (id : List Char),
    ((cancelOrder st id).isOk = false ↔ idToIndex id = none) ∧
    (idToIndex id = none →
      applyOp st (.cancel id) = st ∧ cancelOrder st id = .error .idParseFailure) ∧
    (∀ i, idToIndex id = some i → st.orderStorage.hasOrder i = false →
      cancelOrder st id = .ok st) := by
  intro st id
  cases h : idToIndex id with
  | none =>
    have hc : cancelOrder st id = .error .idParseFailure := by
      simp [cancelOrder, h]
    refine ⟨?_, ?_, ?_⟩
    · rw [hc]
      simp [Except.isOk, Except.toBool]
    · intro _
      refine ⟨?_, hc⟩
      simp [applyOp, hc]
    · intro i hi
      exact Option.noConfusion hi
  | some j =>
    refine ⟨?_, ?_, ?_⟩
    · constructor
      · intro hok
        exfalso
        by_cases hh : st.orderStorage.hasOrder j
        · have hc : cancelOrder st id = .ok (cancelOrderByIndex st j) := by
            simp [cancelOrder, h, hh]
          rw [hc] at hok
          simp [Except.isOk, Except.toBool] at hok
        · have hc : cancelOrder st id = .ok st := by
            simp [cancelOrder, h, hh]
          rw [hc] at hok
          simp [Except.isOk, Except.toBool] at hok
      · intro hn
        exact Option.noConfusion hn
    · intro hn
      exact Option.noConfusion hn
    · intro i hi hdead
      have hij : j = i := Option.some.inj hi
      subst hij
      simp [cancelOrder, h, hdead]

/-- Witness for the amended C4 contract at a concrete input: on the empty
cache, the malformed-tail id "OrdId1x" decodes to the dead slot 1 and the
call is a silent no-op. -/
theorem c4_cancel_error_contract_witness :
    idToIndex ("OrdId1x".data) = some 1 ∧
    cancelOrder emptyCache ("OrdId1x".data) = .ok emptyCache := by
  refine ⟨by decide, ?_⟩
  exact (c4_cancel_error_contract emptyCache ("OrdId1x".data)).2.2 1 (by decide) (by decide)

/-- Counterexample to claim C5 as stated: "OrdId7" and "OrdId07" are two
distinct well-formed order ids that decode to the same slot index 7, so
the id-to-index mapping is not injective on well-formed ids. -/
theorem c5_counterexample :
    idToIndex ("OrdId7".data) = some 7 ∧ idToIndex ("OrdId07".data) = some 7 ∧
    "OrdId7".data ≠ "OrdId07".data ∧
    WireFormatId ("OrdId7".data) ∧ WireFormatId ("OrdId07".data) := by
  refine ⟨by decide, by decide, by decide, by decide, by decide⟩

/-- Claim C5 (amended): on well-formed ids the mapping is total and
deterministic - every such id decodes to exactly the numeric value of its
digit part - and two well-formed ids decode to the same index exactly
when their digit parts denote the same number, so injectivity holds only
up to leading zeros. -/
theorem c5_id_index_contract : ∀ id1 id2 : List Char,
    WireFormatId id1 → WireFormatId id2 →
    idToIndex id1 = some (natOfDigits (id1.drop ordIdPfx.length)) ∧
    (idToIndex id1 = idToIndex id2 ↔
      natOfDigits (id1.drop ordIdPfx.length) = natOfDigits (id2.drop ordIdPfx.length)) := by
  intro id1 id2 h1 h2
  have t1 := idToIndex_wireFormat id1 h1
  have t2 := idToIndex_wireFormat id2 h2
  refine ⟨t1, ?_, ?_⟩
  · intro he
    rw [t1, t2] at he
    exact Option.some.inj he
  · intro he
    rw [t1, t2, he]

/-- Witness for the amended C5 contract at the colliding pair. -/
theorem c5_id_index_contract_witness :
    idToIndex ("OrdId7".data) = some (natOfDigits (("OrdId7".data).drop ordIdPfx.length)) ∧
    (idToIndex ("OrdId7".data) = idToIndex ("OrdId07".data) ↔
      natOfDigits (("OrdId7".data).drop ordIdPfx.length)
        = natOfDigits (("OrdId07".data).drop ordIdPfx.length)) :=
  c5_id_index_contract ("OrdId7".data) ("OrdId07".data) (by decide) (by decide)

end OC

namespace OC

/-- Claim C6 (confirmed): after every sequence of operations, each
security's snapshot side totals equal the sums of quantities over the
live buy orders and live sell orders of that security. -/
theorem c6_snapshot_totality : ∀ st : OrderCache, Reachable st → ∀ s : List Char,
    (st.securitySnapshots s).totalBuy = liveQtySum st (isBuyOn s) ∧
    (st.securitySnapshots s).totalSell = liveQtySum st (isSellOn s) := by
  intro st h s
  have inv := reachable_inv st h
  exact ⟨inv.buy_total s, inv.sell_total s⟩

/-- Witness for C6 on the S3 state. -/
theorem c6_snapshot_totality_witness :
    (s3State.securitySnapshots secSEC).totalBuy = liveQtySum s3State (isBuyOn secSEC) ∧
    (s3State.securitySnapshots secSEC).totalSell = liveQtySum s3State (isSellOn secSEC) :=
  c6_snapshot_totality s3State ⟨opsS3, rfl⟩ secSEC

/-- Claim C9 counterexample: the order whose id is the bare prefix
"OrdId" - an empty digit run, hence not of the claimed format - passes
the validator entirely, so the id-format check is not the one the claim
describes. -/
theorem c9_counterexample :
    validateOrder ⟨"OrdId".data, "SEC".data, "Buy".data, 5, "u".data, "c".data⟩ = none ∧
    ¬ WireFormatId ("OrdId".data) := by
  refine ⟨by decide, by decide⟩

/-- Modelled from the amended claim C9: the validator's cascade with the
format condition it actually implements - the id starts with the literal
prefix and every character after it is a decimal digit (an empty digit
run is accepted and no 64-bit range check is made). -/
def validateOrderRef (o : Order) : Option OrderValidationError :=
  if o.orderId = [] then some .emptyOrderId
  else if ¬ (o.orderId.take ordIdPfx.length = ordIdPfx ∧
             (o.orderId.drop ordIdPfx.length).all isDigitChar = true) then
    some .invalidOrderIdFormat
  else if o.securityId = [] then some .emptySecurityId
  else if o.user = [] then some .emptyUser
  else if o.company = [] then some .emptyCompany
  else if o.side ≠ buySideL ∧ o.side ≠ sellSideL then some .invalidSide
  else if o.qty = 0 then some .zeroQuantity
  else none

/-- Claim C9 (amended): `validateOrder` is pure and returns the first
failing check in the order EmptyOrderId, InvalidOrderIdFormat,
EmptySecurityId, EmptyUser, EmptyCompany, InvalidSide, ZeroQuantity,
where the format check only demands the literal prefix followed by
decimal digits - possibly none, with no 64-bit bound. -/
theorem c9_validator_contract : ∀ o : Order, validateOrder o = validateOrderRef o := by
  intro o
  unfold validateOrder validateOrderRef
  by_cases h1 : o.orderId = []
  · simp [h1]
  rw [if_neg h1, if_neg h1, validateOrderIdFormat_eq]
  by_cases h2 : o.orderId.take ordIdPfx.length = ordIdPfx ∧
      (o.orderId.drop ordIdPfx.length).all isDigitChar = true
  · rw [if_pos h2]
    have h2r : ¬ ¬ (o.orderId.take ordIdPfx.length = ordIdPfx ∧
        (o.orderId.drop ordIdPfx.length).all isDigitChar = true) := not_not_intro h2
    conv_rhs => rw [if_neg h2r]
  · rw [if_neg h2]
    conv_rhs => rw [if_pos h2]

end OC

namespace OC

/-- Undoing one snapshot add restores the snapshot exactly: the remove
reads back precisely the combined volume that the add inserted. -/
theorem remove_add_snapshot (o : Order) (sn : SecuritySnapshot) :
    removeOrderFromSnapshot o (addOrderToSnapshot o sn) = sn := by
  obtain ⟨tb, ts, mv, cvf⟩ := sn
  unfold addOrderToSnapshot removeOrderFromSnapshot
  by_cases hside : o.side = buySideL
  · rw [SecuritySnapshot.mk.injEq]
    refine ⟨?_, ?_, ?_, ?_⟩
    · simp [hside]
    · simp [hside]
    · simp only [hside, if_true, if_pos rfl]
      exact eraseLB_insertLB _ mv
    · funext c
      by_cases hc : c = o.company
      · simp [hside, hc]
      · simp [hside, hc]
  · rw [SecuritySnapshot.mk.injEq]
    refine ⟨?_, ?_, ?_, ?_⟩
    · simp [hside]
    · simp [hside]
    · simp only [hside, if_false, if_pos rfl]
      exact eraseLB_insertLB _ mv
    · funext c
      by_cases hc : c = o.company
      · simp [hside, hc]
      · simp [hside, hc]

/-- The matching-size query reads only the snapshot map. -/
theorem matching_size_congr (st1 st2 : OrderCache)
    (h : st1.securitySnapshots = st2.securitySnapshots) :
    ∀ s, getMatchingSizeForSecurity st1 s = getMatchingSizeForSecurity st2 s := by
  intro s
  unfold getMatchingSizeForSecurity
  rw [h]

end OC

namespace OC

/-- Counterexample to claim C7 as stated: in the reachable state holding
OrdId1, the pair add(o1); cancel(o1.id) does not restore the state - the
duplicate add is ignored but the cancel removes the original live order,
so `getAllOrders` shrinks from one order to none. -/
theorem c7_counterexample :
    getAllOrders (runOps [.add s3o1]) = [s3o1] ∧
    getAllOrders (runOps [.add s3o1, .add s3o1, .cancel ("OrdId1".data)]) = [] := by
  refine ⟨by decide, by decide⟩

/-- Claim C7 (amended): for every reachable state and valid order whose
decoded slot is not alive, add(o); cancel(o.orderId) restores both
observables - `getAllOrders` (even as a list) and the matching size of
every security. -/
theorem c7_roundtrip_fresh_slot : ∀ (st : OrderCache) (o : Order) (i : Nat),
    Reachable st → validateOrder o = none → idToIndex o.orderId = some i →
    st.orderStorage.hasOrder i = false →
    getAllOrders (applyOp (applyOp st (.add o)) (.cancel o.orderId)) = getAllOrders st ∧
    (∀ s, getMatchingSizeForSecurity (applyOp (applyOp st (.add o)) (.cancel o.orderId)) s
        = getMatchingSizeForSecurity st s) := by
  intro st o i hr hv hd hh
  have inv := reachable_inv st hr
  have hnotmem : i ∉ st.orderStorage.aliveOrderIndexes := not_alive_not_mem st inv i hh
  have hpn : st.orderStorage.orderPositions i = none := by
    unfold OrderIndexedStorage.hasOrder at hh
    exact Option.not_isSome_iff_eq_none.mp (by simp [hh])
  -- the committed state after the add
  have hA : applyOp st (.add o) =
      ⟨st.orderStorage.addOrder o i,
       addOrderId st.userOrderIds o.user i,
       addOrderId st.securityOrderIds o.securityId i,
       fun s => if s = o.securityId then addOrderToSnapshot o (st.securitySnapshots s)
                else st.securitySnapshots s⟩ := by
    simp [applyOp, addOrder, hv, hd, hh]
  rw [hA]
  -- the cancel hits the freshly added slot
  have hhasA : (st.orderStorage.addOrder o i).hasOrder i = true := by
    simp [OrderIndexedStorage.hasOrder, OrderIndexedStorage.addOrder]
  have hC : applyOp
      (⟨st.orderStorage.addOrder o i,
        addOrderId st.userOrderIds o.user i,
        addOrderId st.securityOrderIds o.securityId i,
        fun s => if s = o.securityId then addOrderToSnapshot o (st.securitySnapshots s)
                 else st.securitySnapshots s⟩ : OrderCache) (.cancel o.orderId) =
      cancelOrderByIndex
        ⟨st.orderStorage.addOrder o i,
         addOrderId st.userOrderIds o.user i,
         addOrderId st.securityOrderIds o.securityId i,
         fun s => if s = o.securityId then addOrderToSnapshot o (st.securitySnapshots s)
                  else st.securitySnapshots s⟩ i := by
    simp [applyOp, cancelOrder, hd, hhasA]
  rw [hC]
  -- the freshly added slot stores the added order
  have hread : (st.orderStorage.addOrder o i).getOrder i = o := by
    simp [OrderIndexedStorage.getOrder, OrderIndexedStorage.addOrder]
  -- the storage cancel restores positions and the alive list
  have hposA : (st.orderStorage.addOrder o i).orderPositions i
      = some st.orderStorage.aliveOrderIndexes.length := by
    simp [OrderIndexedStorage.addOrder]
  have hlastA : (st.orderStorage.aliveOrderIndexes ++ [i]).getLast?.getD 0 = i := by
    rw [List.getLast?_concat]
    rfl
  have haliveB : (((st.orderStorage.aliveOrderIndexes ++ [i]).set
        st.orderStorage.aliveOrderIndexes.length
        ((st.orderStorage.aliveOrderIndexes ++ [i]).getLast?.getD 0)).dropLast)
      = st.orderStorage.aliveOrderIndexes := by
    rw [hlastA, List.set_append, if_neg (by omega), Nat.sub_self]
    exact List.dropLast_concat
  have hcancB : (st.orderStorage.addOrder o i).cancelOrder i =
      ⟨(st.orderStorage.addOrder o i).orders,
       fun j => if j = i then none
                else if j = (st.orderStorage.aliveOrderIndexes ++ [i]).getLast?.getD 0
                then some st.orderStorage.aliveOrderIndexes.length
                else (st.orderStorage.addOrder o i).orderPositions j,
       ((st.orderStorage.aliveOrderIndexes ++ [i]).set
          st.orderStorage.aliveOrderIndexes.length
          ((st.orderStorage.aliveOrderIndexes ++ [i]).getLast?.getD 0)).dropLast⟩ := by
    unfold OrderIndexedStorage.cancelOrder
    rw [hposA]
    rfl
  constructor
  · -- getAllOrders is restored exactly
    simp only [getAllOrders, OrderIndexedStorage.getAllOrders, cancelOrderByIndex]
    rw [hcancB]
    dsimp only
    rw [haliveB]
    refine List.map_congr_left ?_
    intro j hj
    have hji : j ≠ i := by
      intro he
      rw [he] at hj
      exact hnotmem hj
    simp [OrderIndexedStorage.addOrder, hji]
  · -- the snapshots are restored exactly, hence every matching size
    have hsnapeq : (cancelOrderByIndex
        ⟨st.orderStorage.addOrder o i,
         addOrderId st.userOrderIds o.user i,
         addOrderId st.securityOrderIds o.securityId i,
         fun s => if s = o.securityId then addOrderToSnapshot o (st.securitySnapshots s)
                  else st.securitySnapshots s⟩ i).securitySnapshots
        = st.securitySnapshots := by
      funext s
      show (if s = ((st.orderStorage.addOrder o i).getOrder i).securityId
            then removeOrderFromSnapshot ((st.orderStorage.addOrder o i).getOrder i)
              (if s = o.securityId then addOrderToSnapshot o (st.securitySnapshots s)
               else st.securitySnapshots s)
            else (if s = o.securityId then addOrderToSnapshot o (st.securitySnapshots s)
                  else st.securitySnapshots s))
          = st.securitySnapshots s
      rw [hread]
      by_cases hsec : s = o.securityId
      · rw [if_pos hsec, if_pos hsec, remove_add_snapshot]
      · rw [if_neg hsec, if_neg hsec]
    exact matching_size_congr _ _ hsnapeq

/-- Witness for the amended C7 round trip: adding OrdId1 to the empty
cache and cancelling it restores the empty observables. -/
theorem c7_roundtrip_fresh_slot_witness :
    getAllOrders (applyOp (applyOp emptyCache (.add s3o1)) (.cancel s3o1.orderId))
      = getAllOrders emptyCache ∧
    getMatchingSizeForSecurity (applyOp (applyOp emptyCache (.add s3o1)) (.cancel s3o1.orderId))
        secSEC
      = getMatchingSizeForSecurity emptyCache secSEC := by
  have h := c7_roundtrip_fresh_slot emptyCache s3o1 1 ⟨[], rfl⟩ (by decide) (by decide)
    (by decide)
  exact ⟨h.1, h.2 secSEC⟩

end OC

namespace OC

/-- Claim C8 (confirmed): `addOrder` and `cancelOrder` are idempotent as
state transformers on every state; moreover, when the first add succeeds,
the duplicate add neither errors nor changes anything - it returns the
unchanged state. -/
theorem c8_idempotence : ∀ (st : OrderCache) (o : Order) (id : List Char),
    applyOp (applyOp st (.add o)) (.add o) = applyOp st (.add o) ∧
    ((addOrder st o).isOk = true →
      addOrder (applyOp st (.add o)) o = .ok (applyOp st (.add o))) ∧
    applyOp (applyOp st (.cancel id)) (.cancel id) = applyOp st (.cancel id) := by
  intro st o id
  have hadd : (addOrder st o).isOk = true →
      addOrder (applyOp st (.add o)) o = .ok (applyOp st (.add o)) := by
    intro hok
    cases hv : validateOrder o with
    | some e => simp [addOrder, hv, Except.isOk, Except.toBool] at hok
    | none =>
      cases hd : idToIndex o.orderId with
      | none => simp [addOrder, hv, hd, Except.isOk, Except.toBool] at hok
      | some i =>
        by_cases hh : st.orderStorage.hasOrder i
        · have hA : applyOp st (.add o) = st := by
            simp [applyOp, addOrder, hv, hd, hh]
          rw [hA]
          simp [addOrder, hv, hd, hh]
        · have hA : applyOp st (.add o) =
              ⟨st.orderStorage.addOrder o i,
               addOrderId st.userOrderIds o.user i,
               addOrderId st.securityOrderIds o.securityId i,
               fun s => if s = o.securityId then addOrderToSnapshot o (st.securitySnapshots s)
                        else st.securitySnapshots s⟩ := by
            simp [applyOp, addOrder, hv, hd, hh]
          rw [hA]
          have hh2 : (st.orderStorage.addOrder o i).hasOrder i = true := by
            simp [OrderIndexedStorage.hasOrder, OrderIndexedStorage.addOrder]
          simp [addOrder, hv, hd, hh2]
  refine ⟨?_, hadd, ?_⟩
  · -- add is idempotent on states
    cases hv : validateOrder o with
    | some e => simp [applyOp, addOrder, hv]
    | none =>
      cases hd : idToIndex o.orderId with
      | none => simp [applyOp, addOrder, hv, hd]
      | some i =>
        by_cases hh : st.orderStorage.hasOrder i
        · simp [applyOp, addOrder, hv, hd, hh]
        · have hok : (addOrder st o).isOk = true := by
            simp [addOrder, hv, hd, hh, Except.isOk, Except.toBool]
          have h2 := hadd hok
          show (match addOrder (applyOp st (Op.add o)) o with
                | Except.ok s => s
                | Except.error _ => applyOp st (Op.add o)) = applyOp st (Op.add o)
          rw [h2]
  · -- cancel is idempotent on states
    cases hd : idToIndex id with
    | none => simp [applyOp, cancelOrder, hd]
    | some i =>
      by_cases hh : st.orderStorage.hasOrder i
      · have hB : applyOp st (.cancel id) = cancelOrderByIndex st i := by
          simp [applyOp, cancelOrder, hd, hh]
        rw [hB]
        have hdead : (cancelOrderByIndex st i).orderStorage.hasOrder i = false := by
          obtain ⟨p, hp⟩ : ∃ p, st.orderStorage.orderPositions i = some p := by
            unfold OrderIndexedStorage.hasOrder at hh
            exact Option.isSome_iff_exists.mp hh
          show (st.orderStorage.cancelOrder i).hasOrder i = false
          unfold OrderIndexedStorage.cancelOrder
          rw [hp]
          simp [OrderIndexedStorage.hasOrder]
        simp [applyOp, cancelOrder, hd, hdead]
      · have hB : applyOp st (.cancel id) = st := by
          simp [applyOp, cancelOrder, hd, hh]
        rw [hB]
        exact hB

/-- Witness for C8 at a concrete input: adding OrdId1 to the empty cache
succeeds, and the duplicate add returns the unchanged state without an
error. -/
theorem c8_idempotence_witness :
    (addOrder emptyCache s3o1).isOk = true ∧
    addOrder (applyOp emptyCache (.add s3o1)) s3o1 = .ok (applyOp emptyCache (.add s3o1)) := by
  refine ⟨by decide, ?_⟩
  exact (c8_idempotence emptyCache s3o1 []).2.1 (by decide)

end OC

namespace OC

/-- Claim C10 (confirmed): every order returned by `getAllOrders` on a
reachable state satisfies the add-time validation constraints - positive
quantity, side exactly Buy or Sell, all text fields non-empty, and an
order id that is the literal OrdId prefix followed by a non-empty run of
decimal digits. -/
theorem c10_live_orders_validated : ∀ st : OrderCache, Reachable st →
    ∀ o ∈ getAllOrders st,
    0 < o.qty ∧ (o.side = buySideL ∨ o.side = sellSideL) ∧
    o.orderId ≠ [] ∧ o.securityId ≠ [] ∧ o.user ≠ [] ∧ o.company ≠ [] ∧
    o.orderId.take ordIdPfx.length = ordIdPfx ∧
    (o.orderId.drop ordIdPfx.length).all isDigitChar = true ∧
    ordIdPfx.length < o.orderId.length := by
  intro st hr o hmem
  have inv := reachable_inv st hr
  obtain ⟨i, hi, horder⟩ : ∃ i ∈ st.orderStorage.aliveOrderIndexes,
      st.orderStorage.orders i = o := by
    simpa [getAllOrders, OrderIndexedStorage.getAllOrders, List.mem_map] using hmem
  obtain ⟨q, hq, hget⟩ := List.mem_iff_getElem.mp hi
  have halive : st.orderStorage.hasOrder i = true := by
    have := inv.get_pos q hq
    rw [List.get_eq_getElem, hget] at this
    unfold OrderIndexedStorage.hasOrder
    rw [this]
    rfl
  obtain ⟨hval, hdec⟩ := inv.good i halive
  rw [horder] at hval hdec
  obtain ⟨h1, h2, h3, h4, h5, h6, h7, h8⟩ := validateOrder_none_spec o hval
  refine ⟨h8, h7, h1, h4, h5, h6, h2, h3, ?_⟩
  -- the id decodes, so it is longer than the prefix
  by_contra hlen
  unfold idToIndex at hdec
  rw [if_pos (by omega)] at hdec
  simp at hdec

/-- Witness for C10 on the S3 state at its first live order. -/
theorem c10_live_orders_validated_witness :
    0 < s3o1.qty ∧ (s3o1.side = buySideL ∨ s3o1.side = sellSideL) ∧
    s3o1.orderId ≠ [] ∧ s3o1.securityId ≠ [] ∧ s3o1.user ≠ [] ∧ s3o1.company ≠ [] ∧
    s3o1.orderId.take ordIdPfx.length = ordIdPfx ∧
    (s3o1.orderId.drop ordIdPfx.length).all isDigitChar = true ∧
    ordIdPfx.length < s3o1.orderId.length :=
  c10_live_orders_validated s3State ⟨opsS3, rfl⟩ s3o1 (by decide)

end OC
